import Mathlib

/-!
Shallow embedding of Blightmud's `src/lua/lua_script.rs` (the scripting-runtime
integration layer): pattern-triggered alias/trigger dispatch, GMCP routing,
environment reset, script loading and connection hooks, together with proofs of
the specified behaviour.

Machinery external to the file under verification is modelled by its documented
interface: compiled regular expressions (the `regex` crate's `is_match` /
`captures`), ANSI escape stripping (the `strip_ansi_escapes` crate), and Lua
callbacks (arbitrary host-observable behaviour: they may raise an error and may
register further entries into the table being scanned, which is exactly the
re-entrancy the source permits by iterating the live table).
-/

set_option autoImplicit false

/-- Model of a compiled regular expression as used by the dispatch code through
the external regex library's two entry points: a boolean match test and full
capture extraction.  `captures s` returns one `Option String` per capture
group, group 0 (the whole match) included, `none` marking a group that did not
participate.  The two propositional fields are the library's documented
contract: `captures` succeeds whenever `is_match` holds, and the returned
sequence always has length "number of groups in the pattern plus one". -/
structure Regex where
  groups : Nat
  isMatch : String → Bool
  captures : String → Option (List (Option String))
  captures_isSome : ∀ s, isMatch s = true → (captures s).isSome = true
  captures_length : ∀ s caps, captures s = some caps → caps.length = groups + 1

/-- Modelled from the spec: events emitted on the one-way channel to the host
(`output_stack_trace` in `util.rs`, which is not part of the sources under
verification, sends one diagnostic event per caught callback error). -/
inductive Event where
  | stackTrace (msg : String)
  deriving DecidableEq

/-- One entry of an alias / trigger / prompt-trigger table.  The Rust `Alias`
userdata carries `{regex, enabled}` and `Trigger` carries
`{regex, enabled, gag}` (their definitions live in `user_data.rs`, outside the
sources under verification; shapes as documented in the spec's data model).
Both are represented here by one record; alias scans never read `gag`.
`cb` identifies the Lua callback stored as the entry's user value. -/
structure Entry where
  regex : Regex
  enabled : Bool
  gag : Bool
  cb : Nat

/-- The guard of the dispatch loop:
`rust_alias.enabled && regex.is_match(input)`. -/
def entryFires (input : String) (e : Entry) : Bool :=
  e.enabled && e.regex.isMatch input

/-- Host-observable behaviour of one Lua callback invocation: it may end in an
error (`err = some msg`, the `Err(msg)` branch of `cb.call`), and it may have
registered further entries into the table being iterated (appended in
insertion order, which is how new integer-keyed userdata lands in the Lua
array part that the live `pairs` iteration walks). -/
structure CbResult where
  err : Option String
  registered : List Entry

/-- Assignment of behaviours to callback identifiers. -/
def CbEnv : Type := Nat → List String → CbResult

/-- `captures(input).unwrap().iter().map(|c| match c { Some(m) => m.as_str(),
None => "" })`: one string per group, empty for non-participating groups. -/
def capArgs (caps : List (Option String)) : List String :=
  caps.map (fun c => c.getD "")

/-- `if let Err(msg) = cb.call(..) { output_stack_trace(&self.writer, msg) }`:
the diagnostics appended by one invocation. -/
def errEvents (err : Option String) : List Event :=
  match err with
  | some m => [Event.stackTrace m]
  | none => []

/-- Everything observable about one finished scan pass: the Rust `response`
flag, the diagnostics sent to the event channel, the callback invocations
performed (callback id with its argument list, in order), and the final
contents of the table (initial entries plus everything registered mid-pass). -/
structure ScanResult where
  response : Bool
  events : List Event
  invoked : List (Nat × List String)
  entries : List Entry

/-- Outcome of a scan: normal return, the abort of `captures(..).unwrap()` on
`None`, or exhaustion of the step budget used to make live iteration (whose
table can grow mid-pass) a total function. -/
inductive ScanOut where
  | ok (r : ScanResult)
  | capturePanic
  | fuelOut

/-- The dispatch loop shared by `check_for_alias_match` (with `useGag = false`:
`response = true` on a match) and `check_trigger_match` (with `useGag = true`:
`response = rust_trigger.gag`).  It iterates the live table by position, so
entries registered by a callback during the pass are themselves scanned; `fuel`
bounds the number of loop steps. -/
def scanLive (useGag : Bool) (cbs : CbEnv) (input : String) :
    Nat → List Entry → Nat → Bool → List Event → List (Nat × List String) → ScanOut
  | 0, _, _, _, _, _ => ScanOut.fuelOut
  | fuel + 1, entries, i, resp, evs, inv =>
    if h : i < entries.length then
      let e := entries.get ⟨i, h⟩
      if entryFires input e then
        match e.regex.captures input with
        | none => ScanOut.capturePanic
        | some caps =>
          let args := capArgs caps
          let res := cbs e.cb args
          scanLive useGag cbs input fuel (entries ++ res.registered) (i + 1)
            (if useGag then e.gag else true) (evs ++ errEvents res.err)
            (inv ++ [(e.cb, args)])
      else
        scanLive useGag cbs input fuel entries (i + 1) resp evs inv
    else
      ScanOut.ok ⟨resp, evs, inv, entries⟩

/-- States of the ANSI stripper: plain text, just after `ESC`, or inside a
`CSI` (`ESC [`) sequence. -/
inductive StripMode where
  | normal
  | esc
  | csi

/-- The escape character `\x1b`. -/
def escChar : Char := Char.ofNat 27

/-- Model of the external `strip_ansi_escapes::strip`: printable text is kept;
`ESC [ params final-byte` sequences are removed whole (a final byte is
`0x40..0x7e`); any other `ESC x` pair is removed; a dangling sequence at end of
input is dropped. -/
def stripGo : StripMode → List Char → List Char
  | _, [] => []
  | StripMode.normal, c :: rest =>
    if c = escChar then stripGo StripMode.esc rest
    else c :: stripGo StripMode.normal rest
  | StripMode.esc, c :: rest =>
    if c = '[' then stripGo StripMode.csi rest
    else stripGo StripMode.normal rest
  | StripMode.csi, c :: rest =>
    if 0x40 ≤ c.toNat ∧ c.toNat ≤ 0x7e then stripGo StripMode.normal rest
    else stripGo StripMode.csi rest

/-- `strip_ansi(input.as_bytes())` on a character list. -/
def stripAnsi (l : List Char) : List Char :=
  stripGo StripMode.normal l

/-- `String::from_utf8_lossy(&strip_ansi(input.as_bytes()).unwrap())`. -/
def stripStr (s : String) : String :=
  String.mk (stripAnsi s.data)

/-- The scripting state: the four registries installed as Lua globals by
`create_default_lua_state` (alias table, trigger table, prompt-trigger table,
GMCP listener table). -/
structure LuaScript where
  aliases : List Entry
  triggers : List Entry
  promptTriggers : List Entry
  gmcpListeners : List (String × Nat)

/-- `create_default_lua_state`: a fresh Lua state whose four registry tables
are created empty. -/
def create_default_lua_state : LuaScript :=
  { aliases := [], triggers := [], promptTriggers := [], gmcpListeners := [] }

/-- `LuaScript::reset`: `self.state = create_default_lua_state(..)`. -/
def LuaScript.reset (_s : LuaScript) : LuaScript :=
  create_default_lua_state

/-- `LuaScript::check_for_alias_match`: scan the alias table with
`response = true` recorded for every firing entry. -/
def check_for_alias_match (s : LuaScript) (cbs : CbEnv) (input : String)
    (fuel : Nat) : ScanOut :=
  scanLive false cbs input fuel s.aliases 0 false [] []

/-- `LuaScript::check_trigger_match`: strip ANSI escapes from the input, then
scan the given table with `response = rust_trigger.gag` recorded for every
firing entry. -/
def check_trigger_match (cbs : CbEnv) (entries : List Entry) (input : String)
    (fuel : Nat) : ScanOut :=
  scanLive true cbs (stripStr input) fuel entries 0 false [] []

/-- `LuaScript::check_for_trigger_match`. -/
def check_for_trigger_match (s : LuaScript) (cbs : CbEnv) (input : String)
    (fuel : Nat) : ScanOut :=
  check_trigger_match cbs s.triggers input fuel

/-- `LuaScript::check_for_prompt_trigger_match`. -/
def check_for_prompt_trigger_match (s : LuaScript) (cbs : CbEnv) (input : String)
    (fuel : Nat) : ScanOut :=
  check_trigger_match cbs s.promptTriggers input fuel

/-- Rust `data.splitn(2, ' ')` on a character list: `none` when the list holds
no space, otherwise the parts before and after the first space. -/
def splitn2Chars : List Char → Option (List Char × List Char)
  | [] => none
  | c :: rest =>
    if c = ' ' then some ([], rest)
    else
      match splitn2Chars rest with
      | none => none
      | some (pre, post) => some (c :: pre, post)

/-- `data.splitn(2, ' ').collect::<Vec<String>>()`. -/
def splitn2 (data : String) : List String :=
  match splitn2Chars data.data with
  | none => [data]
  | some (pre, post) => [String.mk pre, String.mk post]

/-- Outcome of `receive_gmcp`: either the host-killing abort of an
out-of-bounds index, or a normal return recording which listener (message
type and content argument) was dispatched, if any. -/
inductive GmcpOut where
  | panicked
  | ok (dispatched : Option (String × String))

/-- `LuaScript::receive_gmcp`: split on the first space (`&split[0]` is the
message type, `&split[1]` the content — the latter index is taken
unconditionally), look the type up in the GMCP listener table, and invoke the
listener with the content; a listener error is discarded by the trailing
`.ok()`.  `gcbs` gives each listener's behaviour (its error, if any). -/
def receive_gmcp (s : LuaScript) (gcbs : Nat → String → Option String)
    (data : String) : GmcpOut :=
  let split := splitn2 data
  match split.get? 1 with
  | none => GmcpOut.panicked
  | some content =>
    let msgType := split.headD ""
    match s.gmcpListeners.lookup msgType with
    | some cb =>
      let _err := gcbs cb content
      GmcpOut.ok (some (msgType, content))
    | none => GmcpOut.ok none

/-- `LuaScript::load_script`: file open/read errors propagate to the caller
(the `?` operator); a compile or runtime error of the script body is caught,
converted to one stack-trace diagnostic, and the call still returns `Ok(())`.
`fileContent` abstracts the filesystem read, `exec` the outcome of running the
script body (`some msg` = Lua error). -/
def load_script (fileContent : Except String String)
    (exec : String → Option String) : Except String (List Event) :=
  match fileContent with
  | Except.error e => Except.error e
  | Except.ok content =>
    match exec content with
    | some msg => Except.ok [Event.stackTrace msg]
    | none => Except.ok []

/-- The abort raised by `.unwrap()` on an `Err` value. -/
inductive HostPanic where
  | unwrapped
  deriving DecidableEq

/-- `LuaScript::on_connect`: if the well-known global callback exists, invoke
it; the closure's `Result` is then `.unwrap()`ed, so a callback error aborts
the host call. -/
def on_connect (g : Option (Unit → Option String)) : Except HostPanic Unit :=
  match g with
  | some callback =>
    match callback () with
    | some _msg => Except.error HostPanic.unwrapped
    | none => Except.ok ()
  | none => Except.ok ()

/-- `LuaScript::on_gmcp_ready`: same shape as `on_connect` for the GMCP-ready
hook. -/
def on_gmcp_ready (g : Option (Unit → Option String)) : Except HostPanic Unit :=
  match g with
  | some callback =>
    match callback () with
    | some _msg => Except.error HostPanic.unwrapped
    | none => Except.ok ()
  | none => Except.ok ()

/-- Specification-side recursion for the value of the `response` flag after a
scan: the per-entry update (`gag` of the last firing entry when `useGag`,
otherwise `true` once anything fired), folded over a list of entries. -/
def lastRespFrom (useGag : Bool) (input : String) : List Entry → Bool → Bool
  | [], resp => resp
  | e :: rest, resp =>
    if entryFires input e then
      lastRespFrom useGag input rest (if useGag then e.gag else true)
    else
      lastRespFrom useGag input rest resp

/-- A regex matching exactly the literal string `lit`, with no capture groups
beyond group 0 (e.g. the anchored pattern `^Hello$`). -/
def literalRegex (lit : String) : Regex where
  groups := 0
  isMatch s := s == lit
  captures s := if s == lit then some [some lit] else none
  captures_isSome := by
    intro s h
    simp [h]
  captures_length := by
    intro s caps h
    by_cases hs : s == lit
    · simp [hs] at h
      simp [← h]
    · simp [hs] at h

/-- A regex for a pattern with one optional group (e.g. `^a(b)?$`): on input
`"a"` the optional group does not participate, on `"ab"` it does. -/
def optGroupRegex : Regex where
  groups := 1
  isMatch s := s == "a" || s == "ab"
  captures s :=
    if s == "ab" then some [some "ab", some "b"]
    else if s == "a" then some [some "a", none]
    else none
  captures_isSome := by
    intro s h
    rcases Bool.or_eq_true _ _ |>.mp h with h1 | h1
    · have : ¬(s == "ab") = true := by
        intro hc
        have e1 : s = "a" := by simpa using h1
        have e2 : s = "ab" := by simpa using hc
        rw [e1] at e2
        exact absurd e2 (by decide)
      simp [h1, this]
    · simp [h1]
  captures_length := by
    intro s caps h
    by_cases h1 : s == "ab"
    · simp [h1] at h
      simp [← h]
    · by_cases h2 : s == "a"
      · simp [h1, h2] at h
        simp [← h]
      · simp [h1, h2] at h

/-- A callback environment that never errs and never registers anything. -/
def silentCbs : CbEnv := fun _ _ => ⟨none, []⟩

/-- Concrete alias firing on `"x"`, invoking callback 0. -/
def seedAlias : Entry := ⟨literalRegex "x", true, false, 0⟩

/-- Concrete alias firing on `"x"`, invoking callback 1; registered only
mid-pass in the re-entrancy scenario. -/
def spawnedAlias : Entry := ⟨literalRegex "x", true, false, 1⟩

/-- Callback environment where callback 0 registers `spawnedAlias` into the
table being scanned and callback 1 does nothing. -/
def reentrantCbs : CbEnv := fun id _ =>
  if id = 0 then ⟨none, [spawnedAlias]⟩ else ⟨none, []⟩

/-- State holding the single alias `seedAlias`. -/
def reentrantState : LuaScript := ⟨[seedAlias], [], [], []⟩

/-- The diagnostic, if any, produced by one recorded invocation. -/
def invDiag (cbs : CbEnv) (q : Nat × List String) : Option Event :=
  ((cbs q.1 q.2).err).map Event.stackTrace

/-- Error isolation of one finished pass: every caught callback error produced
exactly one stack-trace diagnostic (in invocation order, nothing else), and
every entry of the scanned table that fires was actually invoked with its
capture arguments — so an earlier failing callback aborted nothing. -/
def scanIsolated (cbs : CbEnv) (input : String) (r : ScanResult) : Prop :=
  r.events = r.invoked.filterMap (invDiag cbs) ∧
  ∀ j (hj : j < r.entries.length),
    entryFires input (r.entries.get ⟨j, hj⟩) = true →
    ∃ caps, (r.entries.get ⟨j, hj⟩).regex.captures input = some caps ∧
      ((r.entries.get ⟨j, hj⟩).cb, capArgs caps) ∈ r.invoked

/-- Capture alignment of one finished pass: every recorded invocation carries
one argument per capture group of the matching entry's pattern (group count
plus one, group 0 included), the argument at each position being the group's
matched substring, or the empty string for a group that did not participate. -/
def capturesAligned (input : String) (r : ScanResult) : Prop :=
  ∀ q ∈ r.invoked, ∃ e caps,
    e ∈ r.entries ∧ entryFires input e = true ∧
    e.regex.captures input = some caps ∧
    caps.length = e.regex.groups + 1 ∧
    q.2 = capArgs caps ∧
    q.2.length = e.regex.groups + 1 ∧
    ∀ k (hk : k < caps.length), q.2.getD k "" = (caps.get ⟨k, hk⟩).getD ""

/-- Trigger with anchored pattern matching exactly the text Hello, enabled,
with gag set, invoking callback 0. -/
def helloTrigger : Entry := ⟨literalRegex "Hello", true, true, 0⟩

/-- State holding only `helloTrigger` in the trigger table. -/
def helloState : LuaScript := ⟨[], [helloTrigger], [], []⟩

/-- Enabled trigger on the literal "L" with gag clear, registered first. -/
def gagTriggerFirst : Entry := ⟨literalRegex "L", true, false, 0⟩

/-- Enabled trigger on the literal "L" with gag set, registered second. -/
def gagTriggerSecond : Entry := ⟨literalRegex "L", true, true, 1⟩

/-- State holding the two gag-demo triggers in registration order. -/
def gagState : LuaScript := ⟨[], [gagTriggerFirst, gagTriggerSecond], [], []⟩

/-- Expected outcome of scanning `gagState` on input "L". -/
def gagResult : ScanResult :=
  ⟨true, [], [(0, ["L"]), (1, ["L"])], [gagTriggerFirst, gagTriggerSecond]⟩

/-- Enabled alias on the literal "x" whose callback 0 fails. -/
def failAliasFirst : Entry := ⟨literalRegex "x", true, false, 0⟩

/-- Enabled alias on the literal "x" whose callback 1 succeeds. -/
def failAliasSecond : Entry := ⟨literalRegex "x", true, false, 1⟩

/-- State holding the two error-demo aliases in registration order. -/
def failState : LuaScript := ⟨[failAliasFirst, failAliasSecond], [], [], []⟩

/-- Callback environment where callback 0 raises the error "boom" and every
other callback succeeds; nothing registers new entries. -/
def failingCbs : CbEnv := fun id _ =>
  if id = 0 then ⟨some "boom", []⟩ else ⟨none, []⟩

/-- Expected outcome of scanning `failState` on input "x" under
`failingCbs`: both callbacks invoked, one diagnostic. -/
def failResult : ScanResult :=
  ⟨true, [Event.stackTrace "boom"], [(0, ["x"]), (1, ["x"])],
    [failAliasFirst, failAliasSecond]⟩

/-- Enabled alias whose pattern has one optional capture group. -/
def optAlias : Entry := ⟨optGroupRegex, true, false, 0⟩

/-- State holding only `optAlias`. -/
def optState : LuaScript := ⟨[optAlias], [], [], []⟩

/-- Expected outcome of scanning `optState` on input "a": the optional group
did not participate, so the callback received an empty string for it. -/
def optResult : ScanResult := ⟨true, [], [(0, ["a", ""])], [optAlias]⟩

/-! ### Generic facts about the live scan -/

theorem scanLive_grows (useGag : Bool) (cbs : CbEnv) (input : String) :
    ∀ (fuel : Nat) (entries : List Entry) (i : Nat) (resp : Bool)
      (evs : List Event) (inv : List (Nat × List String)) (r : ScanResult),
      scanLive useGag cbs input fuel entries i resp evs inv = ScanOut.ok r →
      (∃ tail, r.entries = entries ++ tail) ∧ (∃ t, r.invoked = inv ++ t) := by
  intro fuel
  induction fuel with
  | zero =>
    intro entries i resp evs inv r h
    simp [scanLive] at h
  | succ n ih =>
    intro entries i resp evs inv r h
    simp only [scanLive] at h
    split at h
    · rename_i hlt
      split at h
      · rename_i hfir
        split at h
        · exact absurd h (by simp)
        · rename_i caps hcaps
          obtain ⟨⟨tail, ht⟩, ⟨t, hv⟩⟩ := ih _ _ _ _ _ _ h
          constructor
          · rw [ht, List.append_assoc]
            exact ⟨_, rfl⟩
          · rw [hv, List.append_assoc]
            exact ⟨_, rfl⟩
      · exact ih _ _ _ _ _ _ h
    · cases h
      exact ⟨⟨[], by simp⟩, ⟨[], by simp⟩⟩

theorem scanLive_noMatch (useGag : Bool) (cbs : CbEnv) (input : String) :
    ∀ (fuel : Nat) (entries : List Entry) (i : Nat) (resp : Bool)
      (evs : List Event) (inv : List (Nat × List String)) (r : ScanResult),
      (∀ e ∈ entries.drop i, entryFires input e = false) →
      scanLive useGag cbs input fuel entries i resp evs inv = ScanOut.ok r →
      r = ⟨resp, evs, inv, entries⟩ := by
  intro fuel
  induction fuel with
  | zero =>
    intro entries i resp evs inv r _ h
    simp [scanLive] at h
  | succ n ih =>
    intro entries i resp evs inv r hno h
    simp only [scanLive] at h
    split at h
    · rename_i hlt
      have hdrop : entries.drop i = entries.get ⟨i, hlt⟩ :: entries.drop (i + 1) :=
        List.drop_eq_getElem_cons hlt
      have hmem : entries.get ⟨i, hlt⟩ ∈ entries.drop i := by
        rw [hdrop]; exact List.mem_cons_self _ _
      split at h
      · rename_i hfir
        rw [hno _ hmem] at hfir
        cases hfir
      · refine ih _ _ _ _ _ _ ?_ h
        intro e he
        exact hno e (by rw [hdrop]; exact List.mem_cons_of_mem _ he)
    · cases h
      rfl

theorem get_prefix_eq {l L tail : List Entry} (ht : L = l ++ tail) {i : Nat}
    (hi : i < l.length) (hi' : i < L.length) :
    L.get ⟨i, hi'⟩ = l.get ⟨i, hi⟩ := by
  subst ht
  simpa using List.getElem_append_left hi

theorem length_le_of_append_eq {l L tail : List Entry} (ht : L = l ++ tail) :
    l.length ≤ L.length := by
  subst ht
  simp

theorem scanLive_response (useGag : Bool) (cbs : CbEnv) (input : String) :
    ∀ (fuel : Nat) (entries : List Entry) (i : Nat) (resp : Bool)
      (evs : List Event) (inv : List (Nat × List String)) (r : ScanResult),
      scanLive useGag cbs input fuel entries i resp evs inv = ScanOut.ok r →
      r.response = lastRespFrom useGag input (r.entries.drop i) resp := by
  intro fuel
  induction fuel with
  | zero =>
    intro entries i resp evs inv r h
    simp [scanLive] at h
  | succ n ih =>
    intro entries i resp evs inv r h
    simp only [scanLive] at h
    split at h
    · rename_i hlt
      split at h
      · rename_i hfir
        split at h
        · exact absurd h (by simp)
        · rename_i caps hcaps
          obtain ⟨tail, ht⟩ := (scanLive_grows useGag cbs input _ _ _ _ _ _ _ h).1
          rw [List.append_assoc] at ht
          have hlt' : i < r.entries.length :=
            Nat.lt_of_lt_of_le hlt (length_le_of_append_eq ht)
          have hgete : r.entries.get ⟨i, hlt'⟩ = entries.get ⟨i, hlt⟩ :=
            get_prefix_eq ht hlt hlt'
          have hdrop : r.entries.drop i =
              entries.get ⟨i, hlt⟩ :: r.entries.drop (i + 1) := by
            rw [List.drop_eq_getElem_cons hlt']
            congr 1
          rw [ih _ _ _ _ _ _ h, hdrop, lastRespFrom, if_pos hfir]
      · rename_i hfir
        obtain ⟨tail, ht⟩ := (scanLive_grows useGag cbs input _ _ _ _ _ _ _ h).1
        have hlt' : i < r.entries.length :=
          Nat.lt_of_lt_of_le hlt (length_le_of_append_eq ht)
        have hgete : r.entries.get ⟨i, hlt'⟩ = entries.get ⟨i, hlt⟩ :=
          get_prefix_eq ht hlt hlt'
        have hdrop : r.entries.drop i =
            entries.get ⟨i, hlt⟩ :: r.entries.drop (i + 1) := by
          rw [List.drop_eq_getElem_cons hlt']
          congr 1
        rw [ih _ _ _ _ _ _ h, hdrop, lastRespFrom, if_neg hfir]
    · cases h
      rename_i hge
      have : entries.length ≤ i := Nat.le_of_not_lt hge
      simp [List.drop_eq_nil_of_le this, lastRespFrom]

theorem scanLive_static (useGag : Bool) (cbs : CbEnv) (input : String)
    (hNoReg : ∀ id args, (cbs id args).registered = []) :
    ∀ (fuel : Nat) (entries : List Entry) (i : Nat) (resp : Bool)
      (evs : List Event) (inv : List (Nat × List String)) (r : ScanResult),
      scanLive useGag cbs input fuel entries i resp evs inv = ScanOut.ok r →
      r.entries = entries := by
  intro fuel
  induction fuel with
  | zero =>
    intro entries i resp evs inv r h
    simp [scanLive] at h
  | succ n ih =>
    intro entries i resp evs inv r h
    simp only [scanLive] at h
    split at h
    · split at h
      · split at h
        · exact absurd h (by simp)
        · have := ih _ _ _ _ _ _ h
          rwa [hNoReg, List.append_nil] at this
      · exact ih _ _ _ _ _ _ h
    · cases h
      rfl

theorem scanLive_noPanic (useGag : Bool) (cbs : CbEnv) (input : String) :
    ∀ (fuel : Nat) (entries : List Entry) (i : Nat) (resp : Bool)
      (evs : List Event) (inv : List (Nat × List String)),
      scanLive useGag cbs input fuel entries i resp evs inv ≠ ScanOut.capturePanic := by
  intro fuel
  induction fuel with
  | zero =>
    intro entries i resp evs inv
    simp [scanLive]
  | succ n ih =>
    intro entries i resp evs inv
    simp only [scanLive]
    split
    · rename_i hlt
      split
      · rename_i hfir
        split
        · rename_i hcaps
          have hm : (entries.get ⟨i, hlt⟩).regex.isMatch input = true :=
            (Bool.and_eq_true _ _ |>.mp hfir).2
          have := (entries.get ⟨i, hlt⟩).regex.captures_isSome input hm
          rw [hcaps] at this
          simp at this
        · exact ih _ _ _ _ _
      · exact ih _ _ _ _ _
    · simp


theorem errEvents_eq (err : Option String) :
    errEvents err = ((err).map Event.stackTrace).toList := by
  cases err <;> rfl

theorem scanLive_inv (useGag : Bool) (cbs : CbEnv) (input : String) :
    ∀ (fuel : Nat) (entries : List Entry) (i : Nat) (resp : Bool)
      (evs : List Event) (inv : List (Nat × List String)) (r : ScanResult),
      scanLive useGag cbs input fuel entries i resp evs inv = ScanOut.ok r →
      (∀ q ∈ r.invoked, q ∈ inv ∨ ∃ e caps, e ∈ r.entries ∧
          entryFires input e = true ∧ e.regex.captures input = some caps ∧
          q = (e.cb, capArgs caps)) ∧
      (∀ j (hj : j < r.entries.length), i ≤ j →
          entryFires input (r.entries.get ⟨j, hj⟩) = true →
          ∃ caps, (r.entries.get ⟨j, hj⟩).regex.captures input = some caps ∧
            ((r.entries.get ⟨j, hj⟩).cb, capArgs caps) ∈ r.invoked) ∧
      (evs = inv.filterMap (invDiag cbs) →
          r.events = r.invoked.filterMap (invDiag cbs)) := by
  intro fuel
  induction fuel with
  | zero =>
    intro entries i resp evs inv r h
    simp [scanLive] at h
  | succ n ih =>
    intro entries i resp evs inv r h
    simp only [scanLive] at h
    split at h
    · rename_i hlt
      split at h
      · rename_i hfir
        split at h
        · exact absurd h (by simp)
        · rename_i caps hcaps
          obtain ⟨IH1, IH2, IH3⟩ := ih _ _ _ _ _ _ h
          obtain ⟨⟨tail, ht⟩, ⟨t, hv⟩⟩ := scanLive_grows useGag cbs input _ _ _ _ _ _ _ h
          rw [List.append_assoc] at ht
          have hlt' : i < r.entries.length :=
            Nat.lt_of_lt_of_le hlt (length_le_of_append_eq ht)
          have hgete : r.entries.get ⟨i, hlt'⟩ = entries.get ⟨i, hlt⟩ :=
            get_prefix_eq ht hlt hlt'
          have hemem : entries.get ⟨i, hlt⟩ ∈ r.entries := by
            rw [← hgete]
            exact List.get_mem _ i hlt'
          have hq0 : ((entries.get ⟨i, hlt⟩).cb, capArgs caps) ∈ r.invoked := by
            rw [hv]
            exact List.mem_append_left _ (List.mem_append_right _ (List.mem_singleton.mpr rfl))
          refine ⟨?_, ?_, ?_⟩
          · intro q hq
            rcases IH1 q hq with hq' | hq'
            · rcases List.mem_append.mp hq' with hq'' | hq''
              · exact Or.inl hq''
              · refine Or.inr ⟨entries.get ⟨i, hlt⟩, caps, hemem, hfir, hcaps, ?_⟩
                simpa using hq''
            · exact Or.inr hq'
          · intro j hj hij hfj
            rcases Nat.lt_or_ge i j with hij' | hij'
            · exact IH2 j hj hij' hfj
            · have hji : j = i := Nat.le_antisymm (Nat.le_of_not_lt (by omega)) hij
              subst hji
              refine ⟨caps, ?_, ?_⟩
              · rw [show (⟨j, hj⟩ : Fin r.entries.length) = ⟨j, hlt'⟩ from rfl, hgete]
                exact hcaps
              · rw [show (⟨j, hj⟩ : Fin r.entries.length) = ⟨j, hlt'⟩ from rfl, hgete]
                exact hq0
          · intro hevs
            refine IH3 ?_
            rw [List.filterMap_append, hevs, errEvents_eq]
            cases herr : (cbs (entries[i]).cb (capArgs caps)).err <;>
              simp [invDiag, herr]
      · rename_i hfir
        obtain ⟨IH1, IH2, IH3⟩ := ih _ _ _ _ _ _ h
        obtain ⟨⟨tail, ht⟩, _⟩ := scanLive_grows useGag cbs input _ _ _ _ _ _ _ h
        have hlt' : i < r.entries.length :=
          Nat.lt_of_lt_of_le hlt (length_le_of_append_eq ht)
        have hgete : r.entries.get ⟨i, hlt'⟩ = entries.get ⟨i, hlt⟩ :=
          get_prefix_eq ht hlt hlt'
        refine ⟨IH1, ?_, IH3⟩
        intro j hj hij hfj
        rcases Nat.lt_or_ge i j with hij' | hij'
        · exact IH2 j hj hij' hfj
        · have hji : j = i := Nat.le_antisymm (Nat.le_of_not_lt (by omega)) hij
          subst hji
          rw [show (⟨j, hj⟩ : Fin r.entries.length) = ⟨j, hlt'⟩ from rfl, hgete] at hfj
          exact absurd hfj hfir
    · cases h
      rename_i hge
      refine ⟨fun q hq => Or.inl hq, ?_, fun hevs => hevs⟩
      intro j hj hij _
      exact absurd (Nat.lt_of_le_of_lt hij hj) hge

theorem lastRespFrom_false_eq_any (input : String) :
    ∀ (l : List Entry) (resp : Bool),
      lastRespFrom false input l resp = (resp || l.any (entryFires input)) := by
  intro l
  induction l with
  | nil =>
    intro resp
    simp [lastRespFrom]
  | cons e rest ih =>
    intro resp
    by_cases hf : entryFires input e = true
    · simp [lastRespFrom, hf, ih]
    · simp [lastRespFrom, hf, ih]

theorem getLast?_map_getD_cons (g : Entry → Bool) :
    ∀ (L : List Entry) (a : Entry) (d : Bool),
      (((a :: L).getLast?).map g).getD d = ((L.getLast?).map g).getD (g a) := by
  intro L
  induction L with
  | nil =>
    intro a d
    rfl
  | cons b L ih =>
    intro a d
    rw [List.getLast?_cons_cons, ih b d, ih b (g a)]

theorem lastRespFrom_true_eq_getLast (input : String) :
    ∀ (l : List Entry) (d : Bool),
      lastRespFrom true input l d =
        (((l.filter (entryFires input)).getLast?).map Entry.gag).getD d := by
  intro l
  induction l with
  | nil =>
    intro d
    rfl
  | cons e rest ih =>
    intro d
    by_cases hf : entryFires input e = true
    · rw [lastRespFrom, if_pos hf, List.filter_cons_of_pos hf,
        getLast?_map_getD_cons Entry.gag _ e d, ih]
      rfl
    · rw [lastRespFrom, if_neg hf, ih,
        List.filter_cons_of_neg (by simpa using hf)]

theorem escChar_not_mem_stripGo : ∀ (l : List Char) (m : StripMode),
    escChar ∉ stripGo m l := by
  intro l
  induction l with
  | nil =>
    intro m
    cases m <;> simp [stripGo]
  | cons c rest ih =>
    intro m
    cases m with
    | normal =>
      simp only [stripGo]
      split
      · exact ih StripMode.esc
      · rename_i hc
        intro hmem
        rcases List.mem_cons.mp hmem with h1 | h1
        · exact hc h1.symm
        · exact ih StripMode.normal h1
    | esc =>
      simp only [stripGo]
      split
      · exact ih StripMode.csi
      · exact ih StripMode.normal
    | csi =>
      simp only [stripGo]
      split
      · exact ih StripMode.normal
      · exact ih StripMode.csi

theorem stripGo_normal_of_not_mem : ∀ (l : List Char), escChar ∉ l →
    stripGo StripMode.normal l = l := by
  intro l
  induction l with
  | nil =>
    intro _
    rfl
  | cons c rest ih =>
    intro h
    have hc : ¬(c = escChar) := by
      intro hce
      subst hce
      exact h (List.mem_cons_self _ _)
    rw [stripGo, if_neg hc, ih (fun hm => h (List.mem_cons_of_mem _ hm))]

theorem stripAnsi_idem (l : List Char) : stripAnsi (stripAnsi l) = stripAnsi l :=
  stripGo_normal_of_not_mem _ (escChar_not_mem_stripGo _ _)

theorem stripStr_idem (s : String) : stripStr (stripStr s) = stripStr s :=
  congrArg String.mk (stripAnsi_idem s.data)

theorem splitn2Chars_eq_none : ∀ (l : List Char), ' ' ∉ l →
    splitn2Chars l = none := by
  intro l
  induction l with
  | nil =>
    intro _
    rfl
  | cons c rest ih =>
    intro h
    have hc : ¬(c = ' ') := by
      intro hce
      subst hce
      exact h (List.mem_cons_self _ _)
    rw [splitn2Chars, if_neg hc, ih (fun hm => h (List.mem_cons_of_mem _ hm))]

theorem splitn2Chars_eq_some : ∀ (l : List Char), ' ' ∈ l →
    ∃ pre post, splitn2Chars l = some (pre, post) := by
  intro l
  induction l with
  | nil =>
    intro h
    cases h
  | cons c rest ih =>
    intro h
    by_cases hc : c = ' '
    · exact ⟨[], rest, by rw [splitn2Chars, if_pos hc]⟩
    · have hmem : ' ' ∈ rest := by
        rcases List.mem_cons.mp h with h1 | h1
        · exact absurd h1.symm hc
        · exact h1
      obtain ⟨pre, post, hs⟩ := ih hmem
      exact ⟨c :: pre, post, by rw [splitn2Chars, if_neg hc, hs]⟩

/-! ### Derived facts used by the claim theorems -/

theorem receive_gmcp_space_ne_panicked (s : LuaScript)
    (gcbs : Nat → String → Option String) (data : String)
    (h : ' ' ∈ data.data) :
    receive_gmcp s gcbs data ≠ GmcpOut.panicked := by
  obtain ⟨pre, post, hs⟩ := splitn2Chars_eq_some data.data h
  simp only [receive_gmcp, splitn2, hs]
  cases hl : s.gmcpListeners.lookup (List.headD [String.mk pre, String.mk post] "") <;>
    simp [hl]

theorem scanLive_isolated (useGag : Bool) (cbs : CbEnv) (input : String)
    (fuel : Nat) (entries : List Entry) (r : ScanResult)
    (h : scanLive useGag cbs input fuel entries 0 false [] [] = ScanOut.ok r) :
    scanIsolated cbs input r := by
  obtain ⟨_, h2, h3⟩ := scanLive_inv useGag cbs input fuel entries 0 false [] [] r h
  exact ⟨h3 rfl, fun j hj hf => h2 j hj (Nat.zero_le j) hf⟩

theorem capArgs_getD : ∀ (caps : List (Option String)) (k : Nat)
    (hk : k < caps.length),
    (capArgs caps).getD k "" = (caps.get ⟨k, hk⟩).getD "" := by
  intro caps
  induction caps with
  | nil =>
    intro k hk
    simp at hk
  | cons c rest ih =>
    intro k hk
    cases k with
    | zero => rfl
    | succ k => exact ih k (Nat.lt_of_succ_lt_succ hk)

theorem scanLive_aligned (useGag : Bool) (cbs : CbEnv) (input : String)
    (fuel : Nat) (entries : List Entry) (r : ScanResult)
    (h : scanLive useGag cbs input fuel entries 0 false [] [] = ScanOut.ok r) :
    capturesAligned input r := by
  obtain ⟨h1, _, _⟩ := scanLive_inv useGag cbs input fuel entries 0 false [] [] r h
  intro q hq
  rcases h1 q hq with hq0 | ⟨e, caps, hmem, hfir, hcaps, hqe⟩
  · simp at hq0
  · have hq2 : q.2 = capArgs caps := by rw [hqe]
    have hlen : caps.length = e.regex.groups + 1 :=
      e.regex.captures_length input caps hcaps
    refine ⟨e, caps, hmem, hfir, hcaps, hlen, hq2, ?_, ?_⟩
    · rw [hq2]
      simp [capArgs, hlen]
    · intro k hk
      rw [hq2]
      exact capArgs_getD caps k hk

theorem check_trigger_match_gag (cbs : CbEnv) (entries : List Entry)
    (input : String) (fuel : Nat) (r : ScanResult)
    (hNoReg : ∀ id args, (cbs id args).registered = [])
    (h : check_trigger_match cbs entries input fuel = ScanOut.ok r) :
    r.response =
      (((entries.filter (entryFires (stripStr input))).getLast?).map Entry.gag).getD
        false := by
  simp only [check_trigger_match] at h
  have h1 := scanLive_response true cbs (stripStr input) fuel entries 0 false [] [] r h
  have h2 := scanLive_static true cbs (stripStr input) hNoReg fuel entries 0 false [] [] r h
  rw [h1, h2, List.drop_zero, lastRespFrom_true_eq_getLast]

/-! ### Claim theorems -/

/-- C1: the claim says an input without a space is dropped silently and
`receive_gmcp` returns normally; the code instead indexes `split[1]`
unconditionally, which is out of bounds for such inputs, so the call aborts
(index-out-of-bounds panic) for every spaceless input. -/
theorem receive_gmcp_malformed_panics (s : LuaScript)
    (gcbs : Nat → String → Option String) (data : String)
    (h : ' ' ∉ data.data) :
    receive_gmcp s gcbs data = GmcpOut.panicked := by
  simp only [receive_gmcp, splitn2, splitn2Chars_eq_none data.data h]
  rfl

/-- C1 witness: the spec's own example input "NoSpaceHere" aborts. -/
theorem receive_gmcp_malformed_panics_witness :
    receive_gmcp create_default_lua_state (fun _ _ => none) "NoSpaceHere" =
      GmcpOut.panicked :=
  receive_gmcp_malformed_panics create_default_lua_state (fun _ _ => none)
    "NoSpaceHere" (by decide)

/-- C2: the claim says an entry registered by a callback during a pass is
never matched or invoked within that same pass (pre-pass snapshot).  The scan
iterates the live table, so when the single initial alias (callback 0) fires
on "x" and its callback registers `spawnedAlias` (callback 1), the new entry
is scanned, matched and invoked before the pass ends: the pass records the
invocation `(1, ["x"])` although `spawnedAlias` was not registered when the
pass began. -/
theorem alias_scan_reentrant_fires_new_entry :
    check_for_alias_match reentrantState reentrantCbs "x" 5 =
      ScanOut.ok ⟨true, [], [(0, ["x"]), (1, ["x"])], [seedAlias, spawnedAlias]⟩ ∧
    spawnedAlias ∉ reentrantState.aliases := by
  constructor
  · rfl
  · intro hmem
    simp [reentrantState, seedAlias, spawnedAlias, Entry.mk.injEq] at hmem

/-- C3: for scans whose callbacks do not mutate the table, the value returned
by `check_for_trigger_match` / `check_for_prompt_trigger_match` is the `gag`
flag of the last enabled entry (in scan order) whose pattern matches the
escape-stripped input, and `false` when no enabled entry matches. -/
theorem check_trigger_returns_last_gag (s : LuaScript) (cbs : CbEnv)
    (input : String) (fuel pfuel : Nat) (rt rp : ScanResult)
    (hNoReg : ∀ id args, (cbs id args).registered = [])
    (ht : check_for_trigger_match s cbs input fuel = ScanOut.ok rt)
    (hp : check_for_prompt_trigger_match s cbs input pfuel = ScanOut.ok rp) :
    rt.response =
      (((s.triggers.filter (entryFires (stripStr input))).getLast?).map
        Entry.gag).getD false ∧
    rp.response =
      (((s.promptTriggers.filter (entryFires (stripStr input))).getLast?).map
        Entry.gag).getD false := by
  exact ⟨check_trigger_match_gag cbs s.triggers input fuel rt hNoReg ht,
    check_trigger_match_gag cbs s.promptTriggers input pfuel rp hNoReg hp⟩

/-- C3 witness: two enabled triggers match "L"; the first has gag clear, the
second (registered later) has gag set; the scan returns true. -/
theorem check_trigger_returns_last_gag_witness :
    gagResult.response =
      (((gagState.triggers.filter (entryFires (stripStr "L"))).getLast?).map
        Entry.gag).getD false ∧
    gagResult.response = true :=
  ⟨(check_trigger_returns_last_gag gagState silentCbs "L" 5 1 gagResult
      ⟨false, [], [], []⟩ (fun _ _ => rfl) rfl rfl).1, rfl⟩

/-- C4 counterexample: the claim says an error raised by a script callback
never unwinds into the host for any of the listed operations; but for
`on_connect` the callback's error reaches the `.unwrap()` and aborts the host
call. -/
theorem on_connect_error_unwinds :
    on_connect (some (fun _ => some "boom")) = Except.error HostPanic.unwrapped :=
  rfl

/-- C4 amended: script failures are caught at the boundary for the three scan
operations (every caught callback error becomes exactly the recorded
diagnostics, and the pass returns normally), for `receive_gmcp` on well-formed
payloads, and for `load_script` (script errors leave the call returning Ok);
but `on_connect` and `on_gmcp_ready` propagate a callback failure into
`.unwrap()`, aborting the host call. -/
theorem script_error_isolation_amended :
    (∀ (s : LuaScript) (cbs : CbEnv) (input : String) (fuel : Nat)
        (r : ScanResult),
        (check_for_alias_match s cbs input fuel = ScanOut.ok r →
          r.events = r.invoked.filterMap (invDiag cbs)) ∧
        (check_for_trigger_match s cbs input fuel = ScanOut.ok r →
          r.events = r.invoked.filterMap (invDiag cbs)) ∧
        (check_for_prompt_trigger_match s cbs input fuel = ScanOut.ok r →
          r.events = r.invoked.filterMap (invDiag cbs))) ∧
    (∀ (s : LuaScript) (gcbs : Nat → String → Option String) (data : String),
        ' ' ∈ data.data → receive_gmcp s gcbs data ≠ GmcpOut.panicked) ∧
    (∀ (content : String) (exec : String → Option String),
        ∃ evs, load_script (Except.ok content) exec = Except.ok evs) ∧
    (∀ (cb : Unit → Option String) (m : String), cb () = some m →
        on_connect (some cb) = Except.error HostPanic.unwrapped ∧
        on_gmcp_ready (some cb) = Except.error HostPanic.unwrapped) := by
  refine ⟨?_, ?_, ?_, ?_⟩
  · intro s cbs input fuel r
    refine ⟨fun h => ?_, fun h => ?_, fun h => ?_⟩
    · exact (scanLive_isolated false cbs input fuel s.aliases r h).1
    · exact (scanLive_isolated true cbs (stripStr input) fuel s.triggers r h).1
    · exact (scanLive_isolated true cbs (stripStr input) fuel s.promptTriggers r h).1
  · exact receive_gmcp_space_ne_panicked
  · intro content exec
    cases hx : exec content with
    | none => exact ⟨[], by simp [load_script, hx]⟩
    | some m => exact ⟨[Event.stackTrace m], by simp [load_script, hx]⟩
  · intro cb m hm
    constructor
    · simp [on_connect, hm]
    · simp [on_gmcp_ready, hm]

/-- C4 amended witness: the concrete scan under a failing callback returns
normally with the error as a diagnostic; a well-formed GMCP payload does not
abort; loading a failing script returns Ok; a failing connect hook aborts. -/
theorem script_error_isolation_amended_witness :
    failResult.events = failResult.invoked.filterMap (invDiag failingCbs) ∧
    receive_gmcp create_default_lua_state (fun _ _ => none) "a b" ≠
      GmcpOut.panicked ∧
    (∃ evs, load_script (Except.ok "blight") (fun _ => some "err") =
      Except.ok evs) ∧
    on_connect (some (fun _ => some "boom")) = Except.error HostPanic.unwrapped :=
  ⟨(script_error_isolation_amended.1 failState failingCbs "x" 4 failResult).1 rfl,
   script_error_isolation_amended.2.1 create_default_lua_state (fun _ _ => none)
     "a b" (by decide),
   script_error_isolation_amended.2.2.1 "blight" (fun _ => some "err"),
   (script_error_isolation_amended.2.2.2 (fun _ => some "boom") "boom" rfl).1⟩

/-- C5: in every alias / trigger / prompt-trigger pass, a failing callback is
caught: it produces exactly one stack-trace diagnostic (the emitted events are
precisely the diagnostics of the failing invocations, in order), and every
entry of the scanned table that matches is still invoked — no failure aborts
the pass. -/
theorem scan_failure_does_not_abort (s : LuaScript) (cbs : CbEnv)
    (input : String) (fuel tfuel pfuel : Nat) (ra rt rp : ScanResult)
    (ha : check_for_alias_match s cbs input fuel = ScanOut.ok ra)
    (ht : check_for_trigger_match s cbs input tfuel = ScanOut.ok rt)
    (hp : check_for_prompt_trigger_match s cbs input pfuel = ScanOut.ok rp) :
    scanIsolated cbs input ra ∧ scanIsolated cbs (stripStr input) rt ∧
    scanIsolated cbs (stripStr input) rp :=
  ⟨scanLive_isolated false cbs input fuel s.aliases ra ha,
   scanLive_isolated true cbs (stripStr input) tfuel s.triggers rt ht,
   scanLive_isolated true cbs (stripStr input) pfuel s.promptTriggers rp hp⟩

/-- C5 witness: two matching aliases, the first callback fails with "boom";
the pass still invokes the second and emits exactly one diagnostic. -/
theorem scan_failure_does_not_abort_witness :
    scanIsolated failingCbs "x" failResult ∧
    failResult.events = [Event.stackTrace "boom"] ∧
    failResult.invoked = [(0, ["x"]), (1, ["x"])] :=
  ⟨(scan_failure_does_not_abort failState failingCbs "x" 4 1 1 failResult
      ⟨false, [], [], []⟩ ⟨false, [], [], []⟩ rfl rfl rfl).1, rfl, rfl⟩

/-- C6: `check_for_alias_match` returns true exactly when some enabled alias
of the registry matches the input; the value does not depend on what the
invoked callbacks do (they are universally quantified), and a disabled entry
never contributes. -/
theorem check_alias_matched_iff (s : LuaScript) (cbs : CbEnv) (input : String)
    (fuel : Nat) (r : ScanResult)
    (h : check_for_alias_match s cbs input fuel = ScanOut.ok r) :
    r.response = true ↔
      ∃ e ∈ s.aliases, e.enabled = true ∧ e.regex.isMatch input = true := by
  simp only [check_for_alias_match] at h
  constructor
  · intro htrue
    by_contra hno
    have hall : ∀ e ∈ s.aliases.drop 0, entryFires input e = false := by
      intro e he
      rw [List.drop_zero] at he
      cases h1 : e.enabled
      · simp [entryFires, h1]
      · cases h2 : e.regex.isMatch input
        · simp [entryFires, h1, h2]
        · exact absurd ⟨e, he, h1, h2⟩ hno
    have hr := scanLive_noMatch false cbs input fuel s.aliases 0 false [] [] r hall h
    rw [hr] at htrue
    cases htrue
  · intro ⟨e, hmem, hen, hm⟩
    have hresp := scanLive_response false cbs input fuel s.aliases 0 false [] [] r h
    rw [List.drop_zero, lastRespFrom_false_eq_any] at hresp
    obtain ⟨tail, ht⟩ := (scanLive_grows false cbs input fuel s.aliases 0 false [] [] r h).1
    have hfire : entryFires input e = true := by
      rw [entryFires, hen, hm]
      rfl
    have hany : r.entries.any (entryFires input) = true :=
      List.any_eq_true.mpr ⟨e, by rw [ht]; exact List.mem_append_left _ hmem, hfire⟩
    rw [hresp, hany]
    rfl

/-- C6 witness: with both demo aliases matching "x" under a failing callback
environment, the pass reports true and a matching enabled alias exists. -/
theorem check_alias_matched_iff_witness :
    (failResult.response = true ↔
      ∃ e ∈ failState.aliases, e.enabled = true ∧
        e.regex.isMatch "x" = true) ∧
    failResult.response = true :=
  ⟨check_alias_matched_iff failState failingCbs "x" 4 failResult rfl, rfl⟩

/-- C7: trigger and prompt-trigger matching operate on the escape-stripped
input — running a scan on the pre-stripped text gives the identical outcome —
and the spec's concrete example holds: the trigger `^Hello$` fires on the
escape-laden input, its callback receiving the clean text. -/
theorem trigger_match_strips_escapes :
    (∀ (s : LuaScript) (cbs : CbEnv) (input : String) (fuel : Nat),
        check_for_trigger_match s cbs (stripStr input) fuel =
          check_for_trigger_match s cbs input fuel ∧
        check_for_prompt_trigger_match s cbs (stripStr input) fuel =
          check_for_prompt_trigger_match s cbs input fuel) ∧
    check_for_trigger_match helloState silentCbs "\x1b[31mHello\x1b[0m" 3 =
      ScanOut.ok ⟨true, [], [(0, ["Hello"])], [helloTrigger]⟩ := by
  refine ⟨?_, rfl⟩
  intro s cbs input fuel
  constructor
  · simp only [check_for_trigger_match, check_trigger_match, stripStr_idem]
  · simp only [check_for_prompt_trigger_match, check_trigger_match, stripStr_idem]

/-- C8: every callback invocation performed by an alias, trigger, or
prompt-trigger pass receives one argument per capture group of the matching
pattern (aligned with the pattern's group count), each argument being the
group's matched substring and each non-participating optional group an empty
string rather than a missing argument. -/
theorem dispatch_capture_alignment (s : LuaScript) (cbs : CbEnv)
    (input : String) (fuel tfuel pfuel : Nat) (ra rt rp : ScanResult)
    (ha : check_for_alias_match s cbs input fuel = ScanOut.ok ra)
    (ht : check_for_trigger_match s cbs input tfuel = ScanOut.ok rt)
    (hp : check_for_prompt_trigger_match s cbs input pfuel = ScanOut.ok rp) :
    capturesAligned input ra ∧ capturesAligned (stripStr input) rt ∧
    capturesAligned (stripStr input) rp :=
  ⟨scanLive_aligned false cbs input fuel s.aliases ra ha,
   scanLive_aligned true cbs (stripStr input) tfuel s.triggers rt ht,
   scanLive_aligned true cbs (stripStr input) pfuel s.promptTriggers rp hp⟩

/-- C8 witness: the one-optional-group pattern on input "a" invokes its
callback with arguments aligned to the two capture positions, the unmatched
optional group passed as the empty string. -/
theorem dispatch_capture_alignment_witness :
    capturesAligned "a" optResult ∧
    optResult.invoked = [(0, ["a", ""])] :=
  ⟨(dispatch_capture_alignment optState silentCbs "a" 3 1 1 optResult
      ⟨false, [], [], []⟩ ⟨false, [], [], []⟩ rfl rfl rfl).1, rfl⟩

/-- C9: `reset` installs a fresh environment with all four registries empty;
whatever the prior state and input, a subsequent `check_for_alias_match`
performs no invocation, emits nothing, and returns false. -/
theorem reset_clears_registries (s : LuaScript) (cbs : CbEnv) (input : String)
    (fuel : Nat) :
    (s.reset).aliases = [] ∧ (s.reset).triggers = [] ∧
    (s.reset).promptTriggers = [] ∧ (s.reset).gmcpListeners = [] ∧
    check_for_alias_match s.reset cbs input (fuel + 1) =
      ScanOut.ok ⟨false, [], [], []⟩ := by
  refine ⟨rfl, rfl, rfl, rfl, ?_⟩
  simp [check_for_alias_match, LuaScript.reset, create_default_lua_state, scanLive]

/-- C10: capture extraction happens only behind the is_match guard, and the
regex contract makes `captures` succeed whenever `is_match` holds, so no
alias / trigger / prompt-trigger pass can ever end in the
`captures(..).unwrap()` abort. -/
theorem dispatch_never_capture_aborts (s : LuaScript) (cbs : CbEnv)
    (input : String) (fuel : Nat) :
    check_for_alias_match s cbs input fuel ≠ ScanOut.capturePanic ∧
    check_for_trigger_match s cbs input fuel ≠ ScanOut.capturePanic ∧
    check_for_prompt_trigger_match s cbs input fuel ≠ ScanOut.capturePanic :=
  ⟨scanLive_noPanic false cbs input fuel s.aliases 0 false [] [],
   scanLive_noPanic true cbs (stripStr input) fuel s.triggers 0 false [] [],
   scanLive_noPanic true cbs (stripStr input) fuel s.promptTriggers 0 false [] []⟩
